import Mathlib

/-!
Verification of the resume-editing core of `src/app/actions.ts`.

The development shallowly embeds the four components of the change-application
pipeline — the position estimator (`estimateTextPositions`), the multi-tier
text matcher (`findTextPosition`), the positional patcher and its fallback
control flow (`generateModifiedPDF`), and the reflow fallback's substring
replacement phase (`generateSimpleModifiedPDF`) — together with the keyword
list post-processing of `extractKeywords`.

Strings are modelled by Lean `String` with all operations implemented over the
underlying character list, mirroring the ASCII behaviour of the JavaScript
string methods used by the source (`trim`, `toLowerCase`, `includes`,
`split(/\s+/)`, `split('\n')`, first-occurrence `replace`).  Numbers appearing
in geometry are modelled by `ℤ` (every arithmetic operation performed by the
source on them is exact at these magnitudes); page indices are `ℕ`.
-/

/-- Whitespace test used by the string helpers (ASCII whitespace,
matching the characters the source's inputs contain). -/
def isWsChar (c : Char) : Bool := c.isWhitespace

/-- `pat` is a prefix of `l` (Boolean). -/
def leadsWith : List Char → List Char → Bool
  | [], _ => true
  | _ :: _, [] => false
  | a :: as, b :: bs => a = b && leadsWith as bs

/-- `sub` occurs somewhere inside `l` (Boolean); `String.prototype.includes`. -/
def containsSub (sub : List Char) : List Char → Bool
  | [] => sub.isEmpty
  | c :: rest => leadsWith sub (c :: rest) || containsSub sub rest

/-- `String.prototype.trim` on the character list: drop whitespace from
both ends. -/
def trimChars (l : List Char) : List Char :=
  ((l.dropWhile isWsChar).reverse.dropWhile isWsChar).reverse

/-- `searchText.trim()`. -/
def jsTrim (s : String) : String := ⟨trimChars s.data⟩

/-- `s.toLowerCase()` (character-wise, ASCII). -/
def jsToLower (s : String) : String := ⟨s.data.map Char.toLower⟩

/-- `s.includes(sub)`. -/
def jsIncludes (s sub : String) : Bool := containsSub sub.data s.data

/-- Helper for `jsSplitWs`: split into maximal whitespace-free words,
accumulating the current word (reversed) in `acc`. -/
def wordsAux : List Char → List Char → List (List Char)
  | [], acc => if acc.isEmpty then [] else [acc.reverse]
  | c :: rest, acc =>
      if isWsChar c then
        if acc.isEmpty then wordsAux rest [] else acc.reverse :: wordsAux rest []
      else wordsAux rest (c :: acc)

/-- `s.split(/\s+/)` as the source applies it: every call site passes a
trimmed string, for which the regex split yields the whitespace-delimited
words — except that the empty string yields `[""]`, as in JavaScript. -/
def jsSplitWs (s : String) : List String :=
  if s.data.isEmpty then [""] else (wordsAux s.data []).map fun l => (⟨l⟩ : String)

/-- `text.split('\n')` on the character list: split at every separator,
keeping empty pieces. -/
def splitOnChar (sep : Char) : List Char → List (List Char)
  | [] => [[]]
  | c :: rest =>
      match splitOnChar sep rest with
      | [] => if c = sep then [[], []] else [[c]]
      | h :: t => if c = sep then [] :: h :: t else (c :: h) :: t

/-- `text.split('\n')`. -/
def splitNl (s : String) : List String :=
  (splitOnChar '\n' s.data).map fun l => (⟨l⟩ : String)

/-- Split a list at the first occurrence of `pat`: `some (pre, suf)` with
`l = pre ++ pat ++ suf` and `pre` shortest, or `none` when `pat` does not
occur. -/
def firstSplit (pat : List Char) : List Char → Option (List Char × List Char)
  | [] => if pat.isEmpty then some ([], []) else none
  | c :: rest =>
      if leadsWith pat (c :: rest) then some ([], (c :: rest).drop pat.length)
      else
        match firstSplit pat rest with
        | none => none
        | some (pre, suf) => some (c :: pre, suf)

/-- ECMAScript `GetSubstitution` for a string search pattern: expand the
replacement template, interpreting the two-character sequences starting
with a dollar sign — a second dollar gives a literal dollar, an ampersand
the matched substring, a backquote (code 96) the part of the subject
before the match and a straight quote (code 39) the part after it; a
dollar before any other character is copied as is, and with a string
pattern there are no capture groups, so the digit and named-group forms
also stay literal. -/
def getSubstitution (matched pre suf : List Char) : List Char → List Char
  | [] => []
  | c :: rest =>
      if c = '$' then
        match rest with
        | [] => [c]
        | d :: rest2 =>
            if d = '$' then c :: getSubstitution matched pre suf rest2
            else if d = '&' then matched ++ getSubstitution matched pre suf rest2
            else if d = Char.ofNat 96 then pre ++ getSubstitution matched pre suf rest2
            else if d = Char.ofNat 39 then suf ++ getSubstitution matched pre suf rest2
            else c :: getSubstitution matched pre suf (d :: rest2)
      else c :: getSubstitution matched pre suf rest

/-- `s.replace(pat, rep)` — rewrites only the first occurrence of `pat`,
substituting `rep` expanded by `getSubstitution`; a no-op when `pat` does
not occur. -/
def jsReplaceFirst (s pat rep : String) : String :=
  match firstSplit pat.data s.data with
  | none => s
  | some (pre, suf) => ⟨pre ++ getSubstitution pat.data pre suf rep.data ++ suf⟩

/-- `k.replace(/[^\w\s]/g, "")`: remove every character that is neither a
word character (`[A-Za-z0-9_]`) nor whitespace. -/
def stripNonWordChars (s : String) : String :=
  ⟨s.data.filter fun c => c.isAlphanum || c = '_' || isWsChar c⟩

/-- `Math.ceil(n * 0.6)` on a non-negative integer count (the float product
rounds to a value whose ceiling is exactly `⌈3n/5⌉` at these magnitudes). -/
def ceil06 (n : Nat) : Nat := (3 * n + 4) / 5

/-- `Math.ceil(n * 0.5)` on a non-negative integer count. -/
def ceil05 (n : Nat) : Nat := (n + 1) / 2

/-! ## Data model (`src/app/actions.ts` lines 8–28) -/

/-- `TextPosition` (actions.ts lines 8–17): one estimated line or word span.
Coordinates are top-down-origin for the estimator's output. -/
structure TextPosition where
  x : ℤ
  y : ℤ
  width : ℤ
  height : ℤ
  fontName : String
  fontSize : ℤ
  text : String
  pageIndex : Nat
  deriving DecidableEq

/-- `changeType` enum of `DetailedChange`. -/
inductive ChangeType where
  | keyword
  | phrasing
  | enhancement
  deriving DecidableEq

/-- `DetailedChange` (actions.ts lines 19–28).  The optional `selected`
field is modelled as `Bool` (`undefined` is falsy, like `false`). -/
structure DetailedChange where
  id : String
  originalText : String
  modifiedText : String
  context : String
  changeType : ChangeType
  keywords : List String
  selected : Bool
  position : Option TextPosition
  deriving DecidableEq

/-! ## TextMatcher: `findTextPosition` (actions.ts lines 411–465) -/

/-- `searchText.trim().toLowerCase()` (actions.ts line 412). -/
def cleanse (s : String) : String := jsToLower (jsTrim s)

/-- Containment test of tier 1 (actions.ts line 416):
`pos.text.toLowerCase().includes(cleanSearchText)`. -/
def containsClean (clean : String) (pos : TextPosition) : Bool :=
  jsIncludes (jsToLower pos.text) clean

/-- Tier 1, exact/containment match (actions.ts lines 414–419): return the
first span whose lowercased text contains the cleaned search text. -/
def tier1 (clean : String) (positions : List TextPosition) : Option TextPosition :=
  positions.find? (containsClean clean)

/-- Tier 2 matching condition on one span (actions.ts lines 423–433):
length gates, then at least `Math.ceil(words.length * 0.6)` of the
whitespace tokens of the search text must be of length > 2 and contained
in the span's lowercased text.  Note the threshold divides the TOTAL token
count, while only tokens of length > 2 can count as matched. -/
def tier2cond (clean : String) (pos : TextPosition) : Bool :=
  let cleanPosText := jsToLower pos.text
  decide (10 < cleanPosText.data.length) && decide (5 < clean.data.length) &&
    (let words := jsSplitWs clean
     let matchedWords := words.filter fun w =>
       decide (2 < w.data.length) && jsIncludes cleanPosText w
     decide (ceil06 words.length ≤ matchedWords.length))

/-- Tier 2, token-overlap match (actions.ts lines 421–435): first span
satisfying `tier2cond`. -/
def tier2 (clean : String) (positions : List TextPosition) : Option TextPosition :=
  positions.find? (tier2cond clean)

/-- `cleanSearchText.split(/\s+/).filter(w => w.length > 2)`
(actions.ts line 438). -/
def searchWordsOf (clean : String) : List String :=
  (jsSplitWs clean).filter fun w => decide (2 < w.data.length)

/-- Adjacent-pair condition (actions.ts lines 441–444): at least
`Math.ceil(searchWords.length * 0.5)` of the search words occur in the
lowercased concatenation of the two spans' texts joined by a space. -/
def pairCondB (sw : List String) (p q : TextPosition) : Bool :=
  let combined := jsToLower (p.text ++ " " ++ q.text)
  decide (ceil05 sw.length ≤ (sw.filter fun w => jsIncludes combined w).length)

/-- Synthetic span returned by the adjacent-pair tier (actions.ts
lines 446–449): the first span with width extended to the right edge of
the second. -/
def synthSpan (p q : TextPosition) : TextPosition :=
  { p with width := q.x + q.width - p.x }

/-- The scan of consecutive span pairs of tier 3 (actions.ts
lines 440–451). -/
def tier3loop (sw : List String) : List TextPosition → Option TextPosition
  | p :: q :: rest =>
      if pairCondB sw p q then some (synthSpan p q) else tier3loop sw (q :: rest)
  | _ => none

/-- Tier 3, adjacent-pair match (actions.ts lines 437–452), guarded by
`searchWords.length > 1`. -/
def tier3 (clean : String) (positions : List TextPosition) : Option TextPosition :=
  let sw := searchWordsOf clean
  if 1 < sw.length then tier3loop sw positions else none

/-- Tier 4 scan (actions.ts lines 456–462): words in token order, spans in
document order. -/
def firstWordHit : List String → List TextPosition → Option TextPosition
  | [], _ => none
  | w :: ws, positions =>
      match positions.find? (fun pos => jsIncludes (jsToLower pos.text) w) with
      | some pos => some pos
      | none => firstWordHit ws positions

/-- Tier 4, single-significant-word match (actions.ts lines 454–462):
tokens of length > 4. -/
def tier4 (clean : String) (positions : List TextPosition) : Option TextPosition :=
  firstWordHit ((searchWordsOf clean).filter fun w => decide (4 < w.data.length)) positions

/-- `findTextPosition` (actions.ts lines 411–465): the ordered strategy
chain; the first tier producing a result wins. -/
def findTextPosition (searchText : String) (positions : List TextPosition) :
    Option TextPosition :=
  let clean := cleanse searchText
  match tier1 clean positions with
  | some p => some p
  | none =>
    match tier2 clean positions with
    | some p => some p
    | none =>
      match tier3 clean positions with
      | some p => some p
      | none => tier4 clean positions

/-! ## PositionEstimator: `estimateTextPositions` (actions.ts lines 508–557) -/

/-- Word spans of one line (actions.ts lines 537–551): `currentX` starts at
the margin and advances by `word.length * 6 + 6` only for words of
length > 2 (shorter words are skipped without advancing). -/
def wordSpans : List String → ℤ → ℤ → Nat → List TextPosition
  | [], _, _, _ => []
  | w :: ws, currentX, y, pageIdx =>
      if 2 < w.data.length then
        { x := currentX, y := y, width := (w.data.length : ℤ) * 6, height := 14,
          fontName := "Helvetica", fontSize := 12, text := w, pageIndex := pageIdx }
          :: wordSpans ws (currentX + (w.data.length : ℤ) * 6 + 6) y pageIdx
      else wordSpans ws currentX y pageIdx

/-- Spans emitted for one source line (actions.ts lines 516–552): nothing
for a blank line; otherwise a line span (width from the UNtrimmed line's
length, text trimmed) followed by the word spans.
`pageIndex = Math.floor(lineIndex * lineHeight / 700)`. -/
def spansForLine (line : String) (currentY : ℤ) (lineIndex : Nat) : List TextPosition :=
  if jsTrim line = "" then []
  else
    let words := jsSplitWs (jsTrim line)
    let pageIdx := lineIndex * 14 / 700
    (if 0 < words.length then
      [{ x := 50, y := currentY, width := (line.data.length : ℤ) * 6, height := 14,
         fontName := "Helvetica", fontSize := 12, text := jsTrim line,
         pageIndex := pageIdx }]
     else []) ++ wordSpans words 50 currentY pageIdx

/-- The `forEach` over lines (actions.ts lines 516–554): `currentY` starts
at 750 and decreases by the line height 14 after EVERY line, blank or not;
it is never reset at a page boundary. -/
def estimateLines : List String → ℤ → Nat → List TextPosition
  | [], _, _ => []
  | line :: rest, currentY, lineIndex =>
      spansForLine line currentY lineIndex ++ estimateLines rest (currentY - 14) (lineIndex + 1)

/-- `estimateTextPositions` (actions.ts lines 508–557). -/
def estimateTextPositions (text : String) : List TextPosition :=
  estimateLines (splitNl text) 750 0

/-! ## PositionalPatcher: `generateModifiedPDF` (actions.ts lines 257–317) -/

/-- One drawing primitive recorded on a page; colors are RGB triples
(`rgb(1,1,1)` white for the cover rectangle, `rgb(0,0,0)` black for the
text). -/
inductive DrawOp where
  | rect (x y width height : ℤ) (color : ℤ × ℤ × ℤ)
  | text (str : String) (x y size : ℤ) (color : ℤ × ℤ × ℤ)
  deriving DecidableEq

/-- A loaded PDF page: its geometry (from `page.getSize()`) and the ordered
draw operations applied to it. -/
structure Page where
  geomWidth : ℤ
  geomHeight : ℤ
  ops : List DrawOp
  deriving DecidableEq

/-- The body of the per-change loop of `generateModifiedPDF` (actions.ts
lines 268–302): a selected change with a position draws the white cover
rectangle and the replacement text on the page at `position.pageIndex`;
if that index addresses no page the change is skipped (`if (!page)
continue`), and unselected or position-less changes do nothing. -/
def applyChangeToPages (pages : List Page) (change : DetailedChange) : List Page :=
  if change.selected then
    match change.position with
    | none => pages
    | some pos =>
      match pages[pos.pageIndex]? with
      | none => pages
      | some page =>
        let pageHeight := page.geomHeight
        pages.set pos.pageIndex
          { page with ops := page.ops ++
              [ DrawOp.rect (pos.x - 2) (pageHeight - pos.y - pos.height - 2)
                  (pos.width + 4) (pos.height + 4) (1, 1, 1),
                DrawOp.text change.modifiedText pos.x
                  (pageHeight - pos.y - pos.fontSize) pos.fontSize (0, 0, 0) ] }
  else pages

/-- The whole positional loop (actions.ts lines 268–302), applied to the
changes in input-list order. -/
def positionalPatch (pages : List Page) (changes : List DetailedChange) : List Page :=
  changes.foldl applyChangeToPages pages

/-- A thrown JavaScript error, reduced to its `message`. -/
structure JsError where
  message : String
  deriving DecidableEq

/-- `Failed to generate modified PDF: ${error.message || 'Unknown error'}`
(actions.ts line 314) — the wrapper carries the ORIGINAL failure's
message, with the falsy empty string replaced by `'Unknown error'`. -/
def wrapMessage (msg : String) : String :=
  "Failed to generate modified PDF: " ++ (if msg = "" then "Unknown error" else msg)

/-- `generateModifiedPDF` (actions.ts lines 257–317) with its external
effects abstracted: `load` models `PDFDocument.load` on the original
buffer, `save` models `originalPdfDoc.save()` (either may throw —
everything awaited inside the `try` block), and `simple` models
`generateSimpleModifiedPDF`.  On any failure of the positional attempt the
fallback runs on the same untouched buffer and original content; only if
the fallback also fails is a single wrapped error thrown. -/
def generateModifiedPDF {β Out : Type}
    (load : β → Except JsError (List Page))
    (save : List Page → Except JsError Out)
    (simple : β → List DetailedChange → String → Except JsError Out)
    (originalPdfBuffer : β) (selectedChanges : List DetailedChange)
    (originalContent : String) : Except JsError Out :=
  match (load originalPdfBuffer).bind
      (fun pages => save (positionalPatch pages selectedChanges)) with
  | .ok out => .ok out
  | .error e =>
      match simple originalPdfBuffer selectedChanges originalContent with
      | .ok out => .ok out
      | .error _ => .error ⟨wrapMessage e.message⟩

/-! ## ReflowFallback, text phase of `generateSimpleModifiedPDF`
(actions.ts lines 330–339) -/

/-- One iteration of the replacement loop: a selected change replaces the
first occurrence of its `originalText` in the accumulated content with its
`modifiedText`; an unselected change is ignored. -/
def applyReplacement (content : String) (change : DetailedChange) : String :=
  if change.selected then jsReplaceFirst content change.originalText change.modifiedText
  else content

/-- `modifiedContent` after the loop of actions.ts lines 331–339: the
selected changes applied in input-list order. -/
def modifiedContentOf (originalContent : String) (changes : List DetailedChange) : String :=
  changes.foldl applyReplacement originalContent

/-! ## `extractKeywords` post-processing (actions.ts lines 76–96) -/

/-- The fallback parsing path (actions.ts lines 81–85): split the raw
response on newlines, keep lines with non-blank trim, strip non-word
characters and trim, keep only non-empty results. -/
def fallbackKeywords (text : String) : List String :=
  (((splitNl text).filter fun k => !(jsTrim k == ""))
    |>.map fun k => jsTrim (stripNonWordChars k))
    |>.filter fun k => decide (0 < k.data.length)

/-- `availableKeywords` (actions.ts lines 76–92): the parsed JSON string
array when `JSON.parse` succeeds on the response (abstracted as
`parsed = some ks`), else the fallback path; then `keywords.slice(0, 20)`. -/
def availableKeywords (parsed : Option (List String)) (text : String) : List String :=
  (match parsed with
   | some ks => ks
   | none => fallbackKeywords text).take 20

/-! ## Helper lemmas about the string model -/

theorem leadsWith_iff (p : List Char) : ∀ l : List Char, leadsWith p l = true ↔ p <+: l := by
  induction p with
  | nil =>
    intro l
    simp only [leadsWith, true_iff]
    exact ⟨l, rfl⟩
  | cons a as ih =>
    intro l
    cases l with
    | nil =>
      show false = true ↔ _
      constructor
      · intro h
        cases h
      · rintro ⟨t, ht⟩
        cases ht
    | cons b bs =>
      simp only [leadsWith, Bool.and_eq_true, decide_eq_true_eq, ih]
      constructor
      · rintro ⟨rfl, t, rfl⟩
        exact ⟨t, rfl⟩
      · rintro ⟨t, ht⟩
        injection ht with h1 h2
        exact ⟨h1, t, h2⟩

theorem infix_cons_split {sub : List Char} {c : Char} {rest : List Char} :
    sub <:+: c :: rest ↔ sub <+: c :: rest ∨ sub <:+: rest := by
  constructor
  · rintro ⟨s, t, h⟩
    cases s with
    | nil => exact Or.inl ⟨t, by simpa using h⟩
    | cons a as =>
      injection h with h1 h2
      exact Or.inr ⟨as, t, h2⟩
  · rintro (⟨t, h⟩ | ⟨s, t, h⟩)
    · exact ⟨[], t, by simpa using h⟩
    · refine ⟨c :: s, t, ?_⟩
      simp only [List.cons_append]
      rw [h]

theorem containsSub_iff (sub : List Char) : ∀ l : List Char, containsSub sub l = true ↔ sub <:+: l := by
  intro l
  induction l with
  | nil =>
    cases sub with
    | nil =>
      simp only [containsSub, List.isEmpty_nil, true_iff]
      exact ⟨[], [], rfl⟩
    | cons a as =>
      show (a :: as).isEmpty = true ↔ _
      simp only [List.isEmpty_cons]
      constructor
      · intro h
        cases h
      · rintro ⟨s, t, h⟩
        have hlen := congrArg List.length h
        simp [List.length_append] at hlen
  | cons c rest ih =>
    show (leadsWith sub (c :: rest) || containsSub sub rest) = true ↔ _
    rw [Bool.or_eq_true, leadsWith_iff, ih, infix_cons_split]

theorem dropWhile_suffix_self (p : Char → Bool) (l : List Char) : l.dropWhile p <:+ l := by
  induction l with
  | nil => exact ⟨[], rfl⟩
  | cons a as ih =>
    rw [List.dropWhile_cons]
    by_cases h : p a = true
    · rw [if_pos h]
      obtain ⟨t, ht⟩ := ih
      exact ⟨a :: t, by rw [List.cons_append, ht]⟩
    · rw [if_neg h]

theorem trimChars_infixOf (l : List Char) : trimChars l <:+: l := by
  unfold trimChars
  obtain ⟨s, hs⟩ := dropWhile_suffix_self isWsChar l
  obtain ⟨t, ht⟩ := dropWhile_suffix_self isWsChar (l.dropWhile isWsChar).reverse
  refine ⟨s, t.reverse, ?_⟩
  have h2 : (List.dropWhile isWsChar (l.dropWhile isWsChar).reverse).reverse ++ t.reverse
      = l.dropWhile isWsChar := by
    rw [← List.reverse_append, ht, List.reverse_reverse]
  rw [List.append_assoc, h2, hs]

theorem infix_map (f : Char → Char) {l₁ l₂ : List Char} (h : l₁ <:+: l₂) :
    l₁.map f <:+: l₂.map f := by
  obtain ⟨s, t, rfl⟩ := h
  exact ⟨s.map f, t.map f, by simp⟩

theorem find?_isSome_of {α : Type} (p : α → Bool) {l : List α} {a : α}
    (ha : a ∈ l) (hpa : p a = true) : (l.find? p).isSome = true := by
  induction l with
  | nil => cases ha
  | cons b bs ih =>
    cases hpb : p b
    · rcases List.mem_cons.mp ha with rfl | hmem
      · rw [hpa] at hpb
        cases hpb
      · rw [List.find?_cons, hpb]
        exact ih hmem
    · rw [List.find?_cons, hpb]
      rfl

theorem firstSplit_none (pat : List Char) :
    ∀ l : List Char, ¬ pat <:+: l → firstSplit pat l = none := by
  intro l
  induction l with
  | nil =>
    intro h
    show (if pat.isEmpty then some ([], []) else none) = none
    cases pat with
    | nil => exact absurd ⟨[], [], rfl⟩ h
    | cons a as => rfl
  | cons c rest ih =>
    intro h
    have hlw : ¬ leadsWith pat (c :: rest) = true := fun hlw =>
      h (infix_cons_split.mpr (Or.inl ((leadsWith_iff pat _).mp hlw)))
    show (if leadsWith pat (c :: rest) = true then _ else _) = none
    rw [if_neg hlw, ih (fun hrest => h (infix_cons_split.mpr (Or.inr hrest)))]

theorem firstSplit_spec (pat : List Char) :
    ∀ l : List Char, pat <:+: l →
      ∃ pre suf, firstSplit pat l = some (pre, suf) ∧ l = pre ++ pat ++ suf ∧
        ∀ pre2 suf2, l = pre2 ++ pat ++ suf2 → pre.length ≤ pre2.length := by
  intro l
  induction l with
  | nil =>
    intro h
    have hpat : pat = [] := by
      obtain ⟨s, t, hst⟩ := h
      obtain ⟨h1, _⟩ := List.append_eq_nil.mp hst
      exact (List.append_eq_nil.mp h1).2
    subst hpat
    exact ⟨[], [], rfl, rfl, fun _ _ _ => Nat.zero_le _⟩
  | cons c rest ih =>
    intro h
    by_cases hlw : leadsWith pat (c :: rest) = true
    · obtain ⟨t, ht⟩ := (leadsWith_iff pat _).mp hlw
      refine ⟨[], t, ?_, by rw [← ht]; simp, fun _ _ _ => Nat.zero_le _⟩
      show (if leadsWith pat (c :: rest) = true then some ([], (c :: rest).drop pat.length)
        else _) = _
      rw [if_pos hlw, ← ht, List.drop_left]
    · have hrest : pat <:+: rest := by
        rcases infix_cons_split.mp h with hpre | hrest
        · exact absurd ((leadsWith_iff pat _).mpr hpre) hlw
        · exact hrest
      obtain ⟨pre, suf, h0, h1, hmin⟩ := ih hrest
      refine ⟨c :: pre, suf, ?_, ?_, ?_⟩
      · show (if leadsWith pat (c :: rest) = true then _ else _) = _
        rw [if_neg hlw, h0]
      · rw [List.cons_append, List.cons_append, ← h1]
      · intro pre2 suf2 heq
        cases pre2 with
        | nil =>
          exact absurd ((leadsWith_iff pat _).mpr ⟨suf2, by simpa using heq.symm⟩) hlw
        | cons d pre2' =>
          have hr : rest = pre2' ++ pat ++ suf2 := by
            injection heq with _ h3
          exact Nat.succ_le_succ (hmin pre2' suf2 hr)

theorem getSubstitution_cons (matched pre suf : List Char) (c : Char) (rest : List Char) :
    getSubstitution matched pre suf (c :: rest) =
      if c = '$' then
        match rest with
        | [] => [c]
        | d :: rest2 =>
            if d = '$' then c :: getSubstitution matched pre suf rest2
            else if d = '&' then matched ++ getSubstitution matched pre suf rest2
            else if d = Char.ofNat 96 then pre ++ getSubstitution matched pre suf rest2
            else if d = Char.ofNat 39 then suf ++ getSubstitution matched pre suf rest2
            else c :: getSubstitution matched pre suf (d :: rest2)
      else c :: getSubstitution matched pre suf rest := by
  rw [getSubstitution.eq_def]

theorem getSubstitution_no_dollar (matched pre suf : List Char) :
    ∀ rep : List Char, '$' ∉ rep → getSubstitution matched pre suf rep = rep := by
  intro rep
  induction rep with
  | nil => intro _; rfl
  | cons c rest ih =>
    intro h
    have hc : ¬ c = '$' := fun hc => h (by rw [hc]; exact List.mem_cons_self _ _)
    rw [getSubstitution_cons, if_neg hc, ih (fun hmem => h (List.mem_cons_of_mem c hmem))]

theorem tier3loop_first (sw : List String) :
    ∀ (i : Nat) (l : List TextPosition) (hi1 : i < l.length) (hi2 : i + 1 < l.length),
      pairCondB sw (l.get ⟨i, hi1⟩) (l.get ⟨i + 1, hi2⟩) = true →
      (∀ k (hk : k < i) (hk1 : k < l.length) (hk2 : k + 1 < l.length),
          pairCondB sw (l.get ⟨k, hk1⟩) (l.get ⟨k + 1, hk2⟩) = false) →
      tier3loop sw l = some (synthSpan (l.get ⟨i, hi1⟩) (l.get ⟨i + 1, hi2⟩)) := by
  intro i
  induction i with
  | zero =>
    intro l hi1 hi2 hcond _
    cases l with
    | nil => simp at hi1
    | cons p l2 =>
      cases l2 with
      | nil => simp at hi2
      | cons q rest =>
        have hc : pairCondB sw p q = true := hcond
        show (if pairCondB sw p q = true then some (synthSpan p q) else _) = _
        rw [if_pos hc]
        rfl
  | succ n ihn =>
    intro l hi1 hi2 hcond hfirst
    cases l with
    | nil => simp at hi1
    | cons p l2 =>
      cases l2 with
      | nil => simp at hi2
      | cons q rest =>
        have h0 : pairCondB sw p q = false :=
          hfirst 0 (Nat.succ_pos n) (by simp) (by simp)
        have h0' : ¬ pairCondB sw p q = true := by rw [h0]; exact Bool.false_ne_true
        show (if pairCondB sw p q = true then _ else tier3loop sw (q :: rest)) = _
        rw [if_neg h0']
        exact ihn (q :: rest) (Nat.lt_of_succ_lt_succ hi1) (Nat.lt_of_succ_lt_succ hi2)
          hcond
          (fun k hk hk1 hk2 =>
            hfirst (k + 1) (Nat.succ_lt_succ hk) (Nat.succ_lt_succ hk1) (Nat.succ_lt_succ hk2))

theorem wordSpans_mem (y : ℤ) (pageIdx : Nat) :
    ∀ (ws : List String) (cx : ℤ) (s : TextPosition), s ∈ wordSpans ws cx y pageIdx →
      s.y = y ∧ s.pageIndex = pageIdx ∧ cx ≤ s.x := by
  intro ws
  induction ws with
  | nil => intro cx s hs; cases hs
  | cons w rest ih =>
    intro cx s hs
    by_cases hw : 2 < w.data.length
    · rw [wordSpans, if_pos hw] at hs
      rcases List.mem_cons.mp hs with rfl | hmem
      · exact ⟨rfl, rfl, le_refl _⟩
      · obtain ⟨h1, h2, h3⟩ := ih _ s hmem
        have hstep : cx ≤ cx + (w.data.length : ℤ) * 6 + 6 := by
          have h6 : (0 : ℤ) ≤ (w.data.length : ℤ) * 6 + 6 := by positivity
          linarith
        exact ⟨h1, h2, le_trans hstep h3⟩
    · rw [wordSpans, if_neg hw] at hs
      exact ih _ s hs

theorem wordSpans_sorted_x (y : ℤ) (pageIdx : Nat) :
    ∀ (ws : List String) (cx : ℤ),
      (wordSpans ws cx y pageIdx).Pairwise (fun a b => a.x ≤ b.x) := by
  intro ws
  induction ws with
  | nil => intro cx; exact List.Pairwise.nil
  | cons w rest ih =>
    intro cx
    by_cases hw : 2 < w.data.length
    · rw [wordSpans, if_pos hw]
      refine List.pairwise_cons.mpr ⟨?_, ih _⟩
      intro s hs
      obtain ⟨_, _, h3⟩ := wordSpans_mem y pageIdx rest _ s hs
      have hstep : cx ≤ cx + (w.data.length : ℤ) * 6 + 6 := by
        have h6 : (0 : ℤ) ≤ (w.data.length : ℤ) * 6 + 6 := by positivity
        linarith
      exact le_trans hstep h3
    · rw [wordSpans, if_neg hw]
      exact ih _

theorem spansForLine_mem (line : String) (y : ℤ) (i : Nat) (s : TextPosition)
    (hs : s ∈ spansForLine line y i) :
    s.y = y ∧ s.pageIndex = i * 14 / 700 ∧ 50 ≤ s.x := by
  by_cases hb : jsTrim line = ""
  · rw [spansForLine, if_pos hb] at hs
    cases hs
  · rw [spansForLine, if_neg hb] at hs
    rcases List.mem_append.mp hs with hmem | hmem
    · by_cases hw : 0 < (jsSplitWs (jsTrim line)).length
      · rw [if_pos hw] at hmem
        rw [List.mem_singleton.mp hmem]
        exact ⟨rfl, rfl, le_refl _⟩
      · rw [if_neg hw] at hmem
        cases hmem
    · exact wordSpans_mem y _ _ _ s hmem

theorem spansForLine_sorted_x (line : String) (y : ℤ) (i : Nat) :
    (spansForLine line y i).Pairwise (fun a b => a.x ≤ b.x) := by
  by_cases hb : jsTrim line = ""
  · rw [spansForLine, if_pos hb]
    exact List.Pairwise.nil
  · rw [spansForLine, if_neg hb]
    rw [List.pairwise_append]
    refine ⟨?_, wordSpans_sorted_x y _ _ _, ?_⟩
    · by_cases hw : 0 < (jsSplitWs (jsTrim line)).length
      · rw [if_pos hw]
        exact List.pairwise_singleton _ _
      · rw [if_neg hw]
        exact List.Pairwise.nil
    · intro a ha b hb2
      obtain ⟨_, _, h3⟩ := wordSpans_mem y _ _ _ b hb2
      by_cases hw : 0 < (jsSplitWs (jsTrim line)).length
      · rw [if_pos hw] at ha
        rw [List.mem_singleton.mp ha]
        exact h3
      · rw [if_neg hw] at ha
        cases ha

theorem estimateLines_mem :
    ∀ (lines : List String) (y : ℤ) (i : Nat) (s : TextPosition),
      s ∈ estimateLines lines y i →
      ∃ k, i ≤ k ∧ s.y + 14 * (k : ℤ) = y + 14 * (i : ℤ) ∧ s.pageIndex = k * 14 / 700 := by
  intro lines
  induction lines with
  | nil => intro y i s hs; cases hs
  | cons line rest ih =>
    intro y i s hs
    rw [estimateLines] at hs
    rcases List.mem_append.mp hs with hmem | hmem
    · obtain ⟨h1, h2, _⟩ := spansForLine_mem line y i s hmem
      exact ⟨i, le_refl i, by rw [h1], h2⟩
    · obtain ⟨k, hk1, hk2, hk3⟩ := ih (y - 14) (i + 1) s hmem
      refine ⟨k, by omega, ?_, hk3⟩
      push_cast at hk2 ⊢
      linarith

/-- The ordering relation of the estimator invariant: page indices
non-decreasing, and within a page the top-down `y` non-increasing. -/
def orderRel (a b : TextPosition) : Prop :=
  a.pageIndex ≤ b.pageIndex ∧ (a.pageIndex = b.pageIndex → b.y ≤ a.y)

theorem pairwise_of_mem {α : Type} {R : α → α → Prop} :
    ∀ {l : List α}, (∀ a ∈ l, ∀ b ∈ l, R a b) → l.Pairwise R := by
  intro l
  induction l with
  | nil => intro _; exact List.Pairwise.nil
  | cons a as ih =>
    intro h
    refine List.pairwise_cons.mpr ⟨?_, ?_⟩
    · intro b hb
      exact h a (List.mem_cons_self a as) b (List.mem_cons_of_mem a hb)
    · exact ih fun u hu v hv => h u (List.mem_cons_of_mem a hu) v (List.mem_cons_of_mem a hv)

theorem estimateLines_pairwise :
    ∀ (lines : List String) (y : ℤ) (i : Nat),
      (estimateLines lines y i).Pairwise orderRel := by
  intro lines
  induction lines with
  | nil => intro y i; exact List.Pairwise.nil
  | cons line rest ih =>
    intro y i
    rw [estimateLines, List.pairwise_append]
    refine ⟨?_, ih _ _, ?_⟩
    · apply pairwise_of_mem
      intro a ha b hb
      obtain ⟨ha1, ha2, _⟩ := spansForLine_mem line y i a ha
      obtain ⟨hb1, hb2, _⟩ := spansForLine_mem line y i b hb
      exact ⟨by rw [ha2, hb2], fun _ => by rw [ha1, hb1]⟩
    · intro a ha b hb
      obtain ⟨ha1, ha2, _⟩ := spansForLine_mem line y i a ha
      obtain ⟨k, hk1, hk2, hk3⟩ := estimateLines_mem rest (y - 14) (i + 1) b hb
      constructor
      · rw [ha2, hk3]
        exact Nat.div_le_div_right (Nat.mul_le_mul_right 14 (by omega))
      · intro _
        rw [ha1]
        have hik : (i : ℤ) + 1 ≤ (k : ℤ) := by exact_mod_cast hk1
        push_cast at hk2
        linarith

/-! ## Claim theorems -/

/-- Claim C8: for every input text the estimator's spans have non-decreasing
page indices in output order and, within a page, non-increasing top-down `y`;
a blank line emits no spans while the recursion still advances the vertical
cursor by one line height; all spans of one source line share that line's `y`
and page index; and the `x` coordinates of the spans emitted for one line are
non-decreasing left to right. -/
theorem C8_estimator_invariants (text : String) :
    ((estimateTextPositions text).Pairwise fun a b =>
        a.pageIndex ≤ b.pageIndex ∧ (a.pageIndex = b.pageIndex → b.y ≤ a.y))
  ∧ (∀ (line : String) (y : ℤ) (i : Nat), jsTrim line = "" → spansForLine line y i = [])
  ∧ (∀ (line : String) (rest : List String) (y : ℤ) (i : Nat),
        estimateLines (line :: rest) y i
          = spansForLine line y i ++ estimateLines rest (y - 14) (i + 1))
  ∧ (∀ (line : String) (y : ℤ) (i : Nat) (s : TextPosition),
        s ∈ spansForLine line y i → s.y = y ∧ s.pageIndex = i * 14 / 700)
  ∧ (∀ (line : String) (y : ℤ) (i : Nat),
        (spansForLine line y i).Pairwise fun a b => a.x ≤ b.x) := by
  refine ⟨estimateLines_pairwise _ _ _, ?_, ?_, ?_, ?_⟩
  · intro line y i hb
    rw [spansForLine, if_pos hb]
  · intro line rest y i
    rfl
  · intro line y i s hs
    obtain ⟨h1, h2, _⟩ := spansForLine_mem line y i s hs
    exact ⟨h1, h2⟩
  · intro line y i
    exact spansForLine_sorted_x line y i

/-- Witness for C8 at concrete inputs: a blank (whitespace-only) line
produces no spans. -/
theorem C8_estimator_invariants_witness :
    spansForLine "   " 750 0 = [] :=
  (C8_estimator_invariants "x").2.1 "   " 750 0 (by decide)

/-- The 55-line text of claim C9: 54 newline characters followed by a word,
so the last line (index 54) is non-blank. -/
def longText : String := ⟨List.replicate 54 '\n' ++ ("abcd").data⟩

/-- The line span the estimator emits for the last line of `longText`:
on page 1 with a negative top-down `y`. -/
def spanNeg : TextPosition :=
  { x := 50, y := -6, width := 24, height := 14, fontName := "Helvetica",
    fontSize := 12, text := "abcd", pageIndex := 1 }

/-- Claim C9: every estimated span's `y` equals `750 − 14·k` where `k` is
its source line index, with `pageIndex = ⌊14k/700⌋` computed from the same
`k` — the vertical cursor is never reset at a page boundary — and on a
concrete input whose 55th line (index 54) is non-blank the estimator emits
a span with `pageIndex = 1` and `y = −6 < 0`. -/
theorem C9_global_cursor (text : String) :
    (∀ s ∈ estimateTextPositions text,
        ∃ k : Nat, s.y + 14 * (k : ℤ) = 750 ∧ s.pageIndex = k * 14 / 700)
  ∧ ∃ s ∈ estimateTextPositions longText, s.pageIndex = 1 ∧ s.y < 0 := by
  constructor
  · intro s hs
    obtain ⟨k, _, hk2, hk3⟩ := estimateLines_mem (splitNl text) 750 0 s hs
    refine ⟨k, ?_, hk3⟩
    push_cast at hk2
    linarith
  · refine ⟨spanNeg, ?_, rfl, by decide⟩
    decide

/-- Witness for C9: the `y = 750 − 14·k` decomposition applied to the
concrete span the estimator emits on page 1 of the long text. -/
theorem C9_global_cursor_witness :
    ∃ k : Nat, (-6 : ℤ) + 14 * (k : ℤ) = 750 ∧ 1 = k * 14 / 700 :=
  (C9_global_cursor longText).1 spanNeg (by decide)

/-- A one-page document used by the patcher examples. -/
def page0 : Page := { geomWidth := 612, geomHeight := 792, ops := [] }

/-- A position whose `pageIndex` (5) is out of range for a one-page
document. -/
def posBad : TextPosition :=
  { x := 50, y := 100, width := 60, height := 14, fontName := "Helvetica",
    fontSize := 12, text := "old text", pageIndex := 5 }

/-- A position addressing page 0. -/
def posGood : TextPosition :=
  { x := 50, y := 100, width := 60, height := 14, fontName := "Helvetica",
    fontSize := 12, text := "old text", pageIndex := 0 }

/-- A selected change carrying the out-of-range position. -/
def cBad : DetailedChange :=
  { id := "change_1", originalText := "old text", modifiedText := "new text",
    context := "Skills section", changeType := ChangeType.keyword,
    keywords := ["kw"], selected := true, position := some posBad }

/-- A selected change carrying the in-range position. -/
def cGood : DetailedChange := { cBad with id := "change_2", position := some posGood }

/-- An unselected change. -/
def cUnselected : DetailedChange := { cGood with id := "change_3", selected := false }

/-- Claim C1 counterexample: with one page, a selected change whose
`pageIndex` (5) is out of range followed by an in-range selected change, the
positional loop skips only the bad change (`if (!page) continue`, actions.ts
line 271) and still applies the good one, and `generateModifiedPDF` returns
the positional result — the reflow fallback (here producing `[]`) is never
invoked and nothing aborts. -/
theorem C1_counterexample :
    applyChangeToPages [page0] cBad = [page0]
  ∧ positionalPatch [page0] [cBad, cGood] ≠ [page0]
  ∧ generateModifiedPDF (fun _ : Unit => Except.ok [page0]) Except.ok
      (fun _ _ _ => Except.ok ([] : List Page)) () [cBad, cGood] "orig"
      = Except.ok (positionalPatch [page0] [cBad, cGood])
  ∧ positionalPatch [page0] [cBad, cGood] ≠ ([] : List Page) := by
  exact ⟨by decide, by decide, rfl, by decide⟩

/-- Claim C1 amended: a selected change whose `pageIndex` is out of range
for the loaded page list is skipped by itself — it leaves every page
untouched and the loop continues with the remaining changes; no abort to
the reflow fallback happens on this account (the fallback only runs on a
thrown exception). -/
theorem C1_amended (pages : List Page) (c : DetailedChange) (pos : TextPosition)
    (hpos : c.position = some pos) (hout : pages.length ≤ pos.pageIndex) :
    applyChangeToPages pages c = pages
  ∧ ∀ rest, positionalPatch pages (c :: rest) = positionalPatch pages rest := by
  have hnone : pages[pos.pageIndex]? = none := by
    rw [List.getElem?_eq_none hout]
  have h1 : applyChangeToPages pages c = pages := by
    by_cases hsel : c.selected = true
    · simp only [applyChangeToPages, hsel, if_true, hpos, hnone]
    · rw [applyChangeToPages, if_neg hsel]
  exact ⟨h1, fun rest => by simp only [positionalPatch, List.foldl_cons, h1]⟩

/-- Witness for C1 amended at the concrete one-page document. -/
theorem C1_amended_witness :
    applyChangeToPages [page0] cBad = [page0]
  ∧ ∀ rest, positionalPatch [page0] (cBad :: rest) = positionalPatch [page0] rest :=
  C1_amended [page0] cBad posBad rfl (by decide)

/-- Claim C6: a selected change whose position addresses an existing page
appends to that page exactly the white cover rectangle with origin
`(x − 2, pageHeight − y − height − 2)` and size `(width + 4, height + 4)`,
followed by the replacement text drawn at `(x, pageHeight − y − fontSize)`
at the position's recorded font size; unselected or position-less changes
cause no draw operations. -/
theorem C6_draw_geometry :
    (∀ (pages : List Page) (c : DetailedChange) (pos : TextPosition),
        c.selected = true → c.position = some pos →
        ∀ (hin : pos.pageIndex < pages.length),
        applyChangeToPages pages c = pages.set pos.pageIndex
          { pages.get ⟨pos.pageIndex, hin⟩ with
            ops := (pages.get ⟨pos.pageIndex, hin⟩).ops ++
              [ DrawOp.rect (pos.x - 2)
                  ((pages.get ⟨pos.pageIndex, hin⟩).geomHeight - pos.y - pos.height - 2)
                  (pos.width + 4) (pos.height + 4) (1, 1, 1),
                DrawOp.text c.modifiedText pos.x
                  ((pages.get ⟨pos.pageIndex, hin⟩).geomHeight - pos.y - pos.fontSize)
                  pos.fontSize (0, 0, 0) ] })
  ∧ (∀ (pages : List Page) (c : DetailedChange),
        c.selected = false ∨ c.position = none → applyChangeToPages pages c = pages) := by
  constructor
  · intro pages c pos hsel hpos hin
    have hsome : pages[pos.pageIndex]? = some (pages.get ⟨pos.pageIndex, hin⟩) := by
      rw [List.getElem?_eq_getElem hin, List.get_eq_getElem]
    simp only [applyChangeToPages, hsel, if_true, hpos, hsome]
  · intro pages c h
    rcases h with hsel | hpos
    · rw [applyChangeToPages, if_neg (by rw [hsel]; exact Bool.false_ne_true)]
    · by_cases hsel : c.selected = true
      · simp only [applyChangeToPages, hsel, if_true, hpos]
      · rw [applyChangeToPages, if_neg hsel]

/-- Witness for C6 at the concrete one-page document: the unselected change
draws nothing, and the in-range selected change appends exactly the cover
rectangle `(48, 676, 64, 18)` and the text draw at `(50, 680)` in size 12. -/
theorem C6_draw_geometry_witness :
    applyChangeToPages [page0] cUnselected = [page0]
  ∧ applyChangeToPages [page0] cGood
      = [ { geomWidth := 612, geomHeight := 792, ops := [
            DrawOp.rect 48 676 64 18 (1, 1, 1),
            DrawOp.text "new text" 50 680 12 (0, 0, 0) ] } ] := by
  constructor
  · exact C6_draw_geometry.2 [page0] cUnselected (Or.inl rfl)
  · rw [C6_draw_geometry.1 [page0] cGood posGood rfl rfl (by decide)]
    decide

/-- Claim C4: when the positional attempt fails (any exception inside the
`try` block, abstracted as a failing load/save effect with error `e`),
`generateModifiedPDF` returns exactly what `generateSimpleModifiedPDF`
produces on the same untouched buffer and original content; no error
reaches the caller unless the fallback itself fails, in which case a
single error wrapping the ORIGINAL failure's message is thrown. -/
theorem C4_fallback_control {β Out : Type} (load : β → Except JsError (List Page))
    (save : List Page → Except JsError Out)
    (simple : β → List DetailedChange → String → Except JsError Out)
    (buf : β) (changes : List DetailedChange) (content : String) (e : JsError)
    (hfail : (load buf).bind (fun pages => save (positionalPatch pages changes))
        = Except.error e) :
    (∀ out, simple buf changes content = Except.ok out →
        generateModifiedPDF load save simple buf changes content = Except.ok out)
  ∧ (∀ e2, simple buf changes content = Except.error e2 →
        generateModifiedPDF load save simple buf changes content
          = Except.error ⟨wrapMessage e.message⟩)
  ∧ (∀ out, generateModifiedPDF load save simple buf changes content = Except.ok out →
        simple buf changes content = Except.ok out) := by
  refine ⟨?_, ?_, ?_⟩
  · intro out hok
    rw [generateModifiedPDF, hfail, hok]
  · intro e2 herr
    rw [generateModifiedPDF, hfail, herr]
  · intro out hres
    rw [generateModifiedPDF, hfail] at hres
    cases hsim : simple buf changes content with
    | ok o =>
      rw [hsim] at hres
      exact hres
    | error e2 =>
      rw [hsim] at hres
      exact Except.noConfusion hres

/-- Witness for C4 at a concrete instantiation: the load effect fails with
message `boom` and the fallback fails too, so the result is the single
wrapped error carrying the original message. -/
theorem C4_fallback_control_witness :
    generateModifiedPDF (fun _ : Unit => Except.error ⟨"boom"⟩)
      (fun _ => (Except.error ⟨"unused"⟩ : Except JsError Unit))
      (fun _ _ _ => Except.error ⟨"fallback failed"⟩) () [] "content"
      = Except.error ⟨wrapMessage "boom"⟩ :=
  (C4_fallback_control (fun _ : Unit => Except.error ⟨"boom"⟩)
    (fun _ => (Except.error ⟨"unused"⟩ : Except JsError Unit))
    (fun _ _ _ => Except.error ⟨"fallback failed"⟩) () [] "content" ⟨"boom"⟩ rfl).2.1
    ⟨"fallback failed"⟩ rfl

/-- The change of the C3 counterexample: its replacement text contains the
JavaScript substitution pattern for the matched substring. -/
def cDollar : DetailedChange :=
  { id := "change_d", originalText := "b", modifiedText := "$&x",
    context := "body", changeType := ChangeType.phrasing, keywords := [],
    selected := true, position := none }

/-- Claim C3 counterexample: the replacement is NOT a literal substring
replacement.  For content `"abc"` and a selected change replacing `"b"`
by `"$&x"`, a literal replacement would yield `"a$&xc"`, but
`String.prototype.replace` expands the dollar patterns of the replacement
string, so the program produces `"abxc"` — the `$&` names the matched
substring. -/
theorem C3_counterexample :
    cDollar.selected = true
  ∧ cDollar.originalText = "b"
  ∧ cDollar.modifiedText = "$&x"
  ∧ ("abc").data = ("a").data ++ cDollar.originalText.data ++ ("c").data
  ∧ applyReplacement "abc" cDollar = "abxc"
  ∧ applyReplacement "abc" cDollar ≠ "a$&xc" := by
  decide

/-- Claim C3 amended: the reflow fallback's content phase applies the
changes in input-list order; a selected change rewrites exactly the FIRST
occurrence of its `originalText` (the earliest match position), replacing
it by `modifiedText` expanded under the dollar-substitution rules of
`String.prototype.replace` — which is the literal `modifiedText` whenever
it contains no dollar character; a selected change whose `originalText`
does not occur leaves the content unchanged, and an unselected change is
never applied. -/
theorem C3_amended :
    (∀ (content : String) (c : DetailedChange), c.selected = false →
        applyReplacement content c = content)
  ∧ (∀ (content : String) (c : DetailedChange), c.selected = true →
        ¬ c.originalText.data <:+: content.data → applyReplacement content c = content)
  ∧ (∀ (content : String) (c : DetailedChange), c.selected = true →
        c.originalText.data <:+: content.data →
        ∃ pre suf, content.data = pre ++ c.originalText.data ++ suf
          ∧ (applyReplacement content c).data
              = pre ++ getSubstitution c.originalText.data pre suf c.modifiedText.data ++ suf
          ∧ ∀ pre2 suf2, content.data = pre2 ++ c.originalText.data ++ suf2 →
              pre.length ≤ pre2.length)
  ∧ (∀ (matched pre suf rep : List Char), '$' ∉ rep →
        getSubstitution matched pre suf rep = rep)
  ∧ (∀ (content : String) (c : DetailedChange) (rest : List DetailedChange),
        modifiedContentOf content (c :: rest)
          = modifiedContentOf (applyReplacement content c) rest) := by
  refine ⟨?_, ?_, ?_, getSubstitution_no_dollar, ?_⟩
  · intro content c hsel
    rw [applyReplacement, if_neg (by rw [hsel]; exact Bool.false_ne_true)]
  · intro content c hsel hno
    rw [applyReplacement, if_pos hsel, jsReplaceFirst,
      firstSplit_none c.originalText.data content.data hno]
  · intro content c hsel hocc
    obtain ⟨pre, suf, h0, h1, hmin⟩ :=
      firstSplit_spec c.originalText.data content.data hocc
    refine ⟨pre, suf, h1, ?_, hmin⟩
    have hrepl : jsReplaceFirst content c.originalText c.modifiedText
        = ⟨pre ++ getSubstitution c.originalText.data pre suf c.modifiedText.data ++ suf⟩ := by
      rw [jsReplaceFirst, h0]
    rw [applyReplacement, if_pos hsel, hrepl]
  · intro content c rest
    rfl

/-- The concrete selected change of the C3 witness (a dollar-free
replacement text). -/
def cRep : DetailedChange :=
  { id := "change_r", originalText := "one", modifiedText := "1",
    context := "body", changeType := ChangeType.phrasing, keywords := [],
    selected := true, position := none }

/-- Witness for C3 amended at concrete inputs: replacing `"one"` by `"1"`
in `"one two one"` rewrites the earliest occurrence only, and the
dollar-free replacement text expands to itself. -/
theorem C3_amended_witness :
    (∃ pre suf, ("one two one").data = pre ++ ("one").data ++ suf
      ∧ (applyReplacement "one two one" cRep).data
          = pre ++ getSubstitution (("one").data) pre suf (("1").data) ++ suf
      ∧ ∀ pre2 suf2, ("one two one").data = pre2 ++ ("one").data ++ suf2 →
          pre.length ≤ pre2.length)
  ∧ getSubstitution (("one").data) [] ((" two one").data) (("1").data) = ("1").data := by
  constructor
  · exact C3_amended.2.2.1 "one two one" cRep rfl
      ((containsSub_iff (("one").data) (("one two one").data)).mp (by decide))
  · exact C3_amended.2.2.2.1 (("one").data) [] ((" two one").data) (("1").data) (by decide)

/-- The cleaned search text made from a span's own text is always contained
in that span's lowercased text: trimming yields an infix, and lowercasing
preserves infixes. -/
theorem cleanse_infix_lower (t : String) : (cleanse t).data <:+: (jsToLower t).data := by
  show (trimChars t.data).map Char.toLower <:+: t.data.map Char.toLower
  exact infix_map Char.toLower (trimChars_infixOf t.data)

/-- The strategy chain of `findTextPosition`, written out. -/
theorem findTextPosition_unfold (searchText : String) (positions : List TextPosition) :
    findTextPosition searchText positions =
      match tier1 (cleanse searchText) positions with
      | some p => some p
      | none =>
        match tier2 (cleanse searchText) positions with
        | some p => some p
        | none =>
          match tier3 (cleanse searchText) positions with
          | some p => some p
          | none => tier4 (cleanse searchText) positions := rfl

/-- The two spans of the C2 counterexample. -/
def spanAB : TextPosition :=
  { x := 50, y := 750, width := 12, height := 14, fontName := "Helvetica",
    fontSize := 12, text := "ab", pageIndex := 0 }

/-- The second span, whose verbatim text is the search text. -/
def spanB : TextPosition := { spanAB with text := "b", y := 736 }

/-- Claim C2 counterexample: with spans `["ab", "b"]` and search text `"b"`
— the verbatim text of the second span — the containment tier returns the
FIRST span whose lowercased text contains the search text, which is
`"ab"`, not the span the text was copied from. -/
theorem C2_counterexample :
    findTextPosition spanB.text [spanAB, spanB] = some spanAB ∧ spanAB ≠ spanB := by
  exact ⟨by decide, by decide⟩

/-- Claim C2 amended: searching for the verbatim text of `spans[i]` always
makes the containment tier fire (so a span is returned), and the result is
the FIRST span of the list whose lowercased text contains the trimmed,
lowercased search text — which is `spans[i]` itself exactly when
`spans[i]` is the first such span, but may be an earlier span. -/
theorem C2_amended (spans : List TextPosition) (i : Fin spans.length) :
    (spans.find? (containsClean (cleanse (spans.get i).text))).isSome = true
  ∧ findTextPosition ((spans.get i).text) spans
      = spans.find? (containsClean (cleanse (spans.get i).text)) := by
  have hpred : containsClean (cleanse (spans.get i).text) (spans.get i) = true := by
    rw [containsClean, jsIncludes, containsSub_iff]
    exact cleanse_infix_lower _
  have hsome := find?_isSome_of _ (List.get_mem spans i.1 i.2) hpred
  refine ⟨hsome, ?_⟩
  obtain ⟨s, hs⟩ := Option.isSome_iff_exists.mp hsome
  rw [findTextPosition_unfold]
  rw [show tier1 (cleanse ((spans.get i).text)) spans
      = spans.find? (containsClean (cleanse ((spans.get i).text))) from rfl]
  rw [hs]

/-- Witness for C2 amended at the concrete two-span list of the
counterexample, with `i = 1`. -/
theorem C2_amended_witness :
    (([spanAB, spanB].find? (containsClean (cleanse "b"))).isSome = true)
  ∧ findTextPosition "b" [spanAB, spanB]
      = [spanAB, spanB].find? (containsClean (cleanse "b")) :=
  C2_amended [spanAB, spanB] ⟨1, by decide⟩

/-- The single span of the C5 counterexample. -/
def spanEfg : TextPosition :=
  { x := 50, y := 750, width := 78, height := 14, fontName := "Helvetica",
    fontSize := 12, text := "xxxx efg yyyy", pageIndex := 0 }

/-- Claim C5 counterexample: for search text `"ab cd efg"` against the
single span `"xxxx efg yyyy"`, every gate of the claim holds — the span's
lowercased text is longer than 10, the search text longer than 5, and the
sole token of length > 2 (`"efg"`, which is all `ceil(0.6 × 1) = 1` of
them) is a substring of the span's text — so by the claim the tier returns
that span; but `findTextPosition` returns nothing: the code compares
against `ceil(0.6 × 3) = 2` over ALL three whitespace tokens (including
`"ab"` and `"cd"`), and only one token can match. -/
theorem C5_counterexample :
    findTextPosition "ab cd efg" [spanEfg] = none
  ∧ jsIncludes (jsToLower spanEfg.text) "efg" = true
  ∧ 10 < (jsToLower spanEfg.text).data.length
  ∧ 5 < (cleanse "ab cd efg").data.length
  ∧ searchWordsOf (cleanse "ab cd efg") = ["efg"]
  ∧ ceil06 (searchWordsOf (cleanse "ab cd efg")).length = 1
  ∧ (jsSplitWs (cleanse "ab cd efg")).length = 3
  ∧ tier2cond (cleanse "ab cd efg") spanEfg = false := by
  decide

/-- Claim C5 amended: the token-overlap tier restricts to spans whose
lowercased text is longer than 10 characters when the cleaned search text
is longer than 5; it splits the search text into ALL whitespace tokens,
counts as matched those tokens that are simultaneously of length > 2 and
substrings of the span's lowercased text, and fires when that count
reaches `ceil(0.6 × totalTokenCount)` — the threshold divides the TOTAL
token count, not the count of tokens of length > 2.  When the containment
tier fails, `findTextPosition` returns the first span satisfying this
condition. -/
theorem C5_amended (searchText : String) (positions : List TextPosition) (s : TextPosition)
    (h1 : tier1 (cleanse searchText) positions = none)
    (h2 : positions.find? (tier2cond (cleanse searchText)) = some s) :
    findTextPosition searchText positions = some s
  ∧ ∀ pos, tier2cond (cleanse searchText) pos = true ↔
      (10 < (jsToLower pos.text).data.length ∧ 5 < (cleanse searchText).data.length ∧
        ceil06 (jsSplitWs (cleanse searchText)).length ≤
          ((jsSplitWs (cleanse searchText)).filter fun w =>
            decide (2 < w.data.length) && jsIncludes (jsToLower pos.text) w).length) := by
  constructor
  · rw [findTextPosition_unfold, h1]
    rw [show tier2 (cleanse searchText) positions
        = positions.find? (tier2cond (cleanse searchText)) from rfl, h2]
  · intro pos
    rw [tier2cond]
    simp only [Bool.and_eq_true, decide_eq_true_eq, and_assoc]

/-- The single span of the C5 witness. -/
def spanHello : TextPosition :=
  { x := 50, y := 750, width := 114, height := 14, fontName := "Helvetica",
    fontSize := 12, text := "xx worldly hello yy", pageIndex := 0 }

/-- Witness for C5 amended: searching `"hello world"` against the span
`"xx worldly hello yy"` — containment fails, and the tier fires because
both tokens (out of 2, threshold `ceil(0.6 × 2) = 2`) are contained. -/
theorem C5_amended_witness :
    findTextPosition "hello world" [spanHello] = some spanHello
  ∧ ∀ pos, tier2cond (cleanse "hello world") pos = true ↔
      (10 < (jsToLower pos.text).data.length ∧ 5 < (cleanse "hello world").data.length ∧
        ceil06 (jsSplitWs (cleanse "hello world")).length ≤
          ((jsSplitWs (cleanse "hello world")).filter fun w =>
            decide (2 < w.data.length) && jsIncludes (jsToLower pos.text) w).length) :=
  C5_amended "hello world" [spanHello] spanHello (by decide) (by decide)

/-- Claim C7: when the containment and token-overlap tiers fail and the
search text has more than one token of length > 2, the matcher scans
consecutive span pairs in document order; at the FIRST pair whose
concatenated text contains at least `ceil(0.5 × tokenCount)` of the search
tokens it returns the synthetic span — the first span of the pair with
`width = secondSpan.x + secondSpan.width − firstSpan.x`. -/
theorem C7_adjacent_pair (searchText : String) (positions : List TextPosition) (i : Nat)
    (hi1 : i < positions.length) (hi2 : i + 1 < positions.length)
    (h1 : tier1 (cleanse searchText) positions = none)
    (h2 : positions.find? (tier2cond (cleanse searchText)) = none)
    (hsw : 1 < (searchWordsOf (cleanse searchText)).length)
    (hcond : pairCondB (searchWordsOf (cleanse searchText))
        (positions.get ⟨i, hi1⟩) (positions.get ⟨i + 1, hi2⟩) = true)
    (hfirst : ∀ k, k < i → ∀ (hk1 : k < positions.length) (hk2 : k + 1 < positions.length),
        pairCondB (searchWordsOf (cleanse searchText))
          (positions.get ⟨k, hk1⟩) (positions.get ⟨k + 1, hk2⟩) = false) :
    findTextPosition searchText positions
      = some (synthSpan (positions.get ⟨i, hi1⟩) (positions.get ⟨i + 1, hi2⟩)) := by
  have h3 := tier3loop_first (searchWordsOf (cleanse searchText)) i positions hi1 hi2 hcond hfirst
  rw [findTextPosition_unfold, h1]
  rw [show tier2 (cleanse searchText) positions
      = positions.find? (tier2cond (cleanse searchText)) from rfl, h2]
  rw [show tier3 (cleanse searchText) positions
      = if 1 < (searchWordsOf (cleanse searchText)).length
        then tier3loop (searchWordsOf (cleanse searchText)) positions else none from rfl]
  rw [if_pos hsw, h3]

/-- First span of the C7 witness: its pair with the next span matches too
few tokens. -/
def pZz : TextPosition :=
  { x := 50, y := 750, width := 12, height := 14, fontName := "Helvetica",
    fontSize := 12, text := "zz", pageIndex := 0 }

/-- Second span of the C7 witness (the line containing `"led"`). -/
def pLed : TextPosition :=
  { x := 50, y := 736, width := 18, height := 14, fontName := "Helvetica",
    fontSize := 12, text := "led", pageIndex := 0 }

/-- Third span of the C7 witness. -/
def pCrossFunc : TextPosition :=
  { x := 50, y := 722, width := 96, height := 14, fontName := "Helvetica",
    fontSize := 12, text := "cross functional", pageIndex := 0 }

/-- Witness for C7, scenario B: searching
`"led cross functional teams"` against `["zz", "led", "cross functional"]`
— the pair at index 0 fails (1 of 4 tokens), the pair at index 1 fires
(3 of 4 ≥ 2), and the result is `"led"`'s span widened to the right edge
of `"cross functional"`. -/
theorem C7_adjacent_pair_witness :
    findTextPosition "led cross functional teams" [pZz, pLed, pCrossFunc]
      = some (synthSpan pLed pCrossFunc) := by
  have hfirst : ∀ k, k < 1 →
      ∀ (hk1 : k < ([pZz, pLed, pCrossFunc] : List TextPosition).length)
        (hk2 : k + 1 < ([pZz, pLed, pCrossFunc] : List TextPosition).length),
      pairCondB (searchWordsOf (cleanse "led cross functional teams"))
        ([pZz, pLed, pCrossFunc].get ⟨k, hk1⟩)
        ([pZz, pLed, pCrossFunc].get ⟨k + 1, hk2⟩) = false := by
    intro k hk hk1 hk2
    have hk0 : k = 0 := by omega
    subst hk0
    have e1 : ([pZz, pLed, pCrossFunc] : List TextPosition).get ⟨0, hk1⟩ = pZz := rfl
    have e2 : ([pZz, pLed, pCrossFunc] : List TextPosition).get ⟨0 + 1, hk2⟩ = pLed := rfl
    rw [e1, e2]
    decide
  exact C7_adjacent_pair "led cross functional teams" [pZz, pLed, pCrossFunc] 1
    (by decide) (by decide) (by decide) (by decide) (by decide) (by decide) hfirst

/-- Claim C10: whichever path produced the keyword list — a successful JSON
parse of the response (abstracted as `parsed = some ks`) or the
line-splitting fallback — `availableKeywords` has length at most 20, and on
the fallback path it contains no empty strings (each entry survived the
final `length > 0` filter). -/
theorem C10_keywords (parsed : Option (List String)) (text : String) :
    (availableKeywords parsed text).length ≤ 20
  ∧ (parsed = none → ∀ k ∈ availableKeywords parsed text, k ≠ "") := by
  constructor
  · show ((match parsed with
      | some ks => ks
      | none => fallbackKeywords text).take 20).length ≤ 20
    rw [List.length_take]
    exact min_le_left _ _
  · rintro rfl k hk hkeq
    have hk2 : k ∈ fallbackKeywords text := List.take_subset _ _ hk
    rw [fallbackKeywords] at hk2
    have hlen := (List.mem_filter.mp hk2).2
    rw [hkeq] at hlen
    exact absurd hlen (by decide)

/-- Witness for C10: the fallback path on a concrete raw response yields
only non-empty keywords. -/
theorem C10_keywords_witness :
    ∀ k ∈ availableKeywords none "React\n- SQL!\n  \n", k ≠ "" :=
  (C10_keywords none "React\n- SQL!\n  \n").2 rfl
